import Mathlib

/-!
# Verification of the inspiro quote-delivery core

A shallow embedding of the quote-browsing application's core subsystem:

* the Fisher-Yates shuffle shared by src/lib/quote-service.ts and
  src/lib/utils.ts (the two copies are textually identical);
* the server-side query functions getQuoteIds and getQuotesByIds of
  src/lib/quote-service.ts, over an explicit database model standing for
  the prisma tables;
* the request validation of the batch endpoint
  src/app/api/quotes/batch/route.ts;
* the client hook src/hooks/use-optimized-quotes.ts, embedded as explicit
  state passing with React's closure semantics made explicit: the useState
  variables and the fetchedIds ref form a HookState record; within one
  getNextQuote call every read of quotesCache goes to the render-captured
  map (onSuccess builds a new Map and calls setQuotesCache, never mutating
  the captured one) and the prefetchNextBatch closure reads the
  render-captured currentIdIndex, while the fetchedIds ref is always
  current; the pending setter writes are threaded through the state so the
  next operation of a session starts from the re-rendered state; every
  network request issued is recorded in a request log.
-/

namespace Inspiro

/-! ## Fisher-Yates shuffle (src/lib/quote-service.ts lines 101-108) -/

/-- One destructuring swap `[a[i], a[j]] = [a[j], a[i]]` on a list.
When either index is out of range the list is returned unchanged
(in the source both indices are always in range). -/
def swapList {α : Type} (l : List α) (i j : Nat) : List α :=
  match l[i]?, l[j]? with
  | some a, some b => (l.set i b).set j a
  | _, _ => l

/-- The loop `for (let i = length - 1; i > 0; i--)` of shuffleArray,
run from index `i` down to 1.  `rand i` stands for the value
`Math.floor(Math.random() * (i + 1))` drawn at loop index `i`; taking it
modulo `i + 1` keeps every draw in the range `[0, i]` that
`Math.floor(Math.random() * (i + 1))` produces. -/
def fyStep {α : Type} (rand : Nat → Nat) : Nat → List α → List α
  | 0, l => l
  | i + 1, l => fyStep rand i (swapList l (i + 1) (rand (i + 1) % (i + 2)))

/-- `shuffleArray` of src/lib/quote-service.ts (identical copy in
src/lib/utils.ts): copy the array and run the Fisher-Yates loop from
`length - 1` down to 1. -/
def shuffleArray {α : Type} (rand : Nat → Nat) (l : List α) : List α :=
  fyStep rand (l.length - 1) l

theorem cons_set_perm {α : Type} (l : List α) (m : Nat) (b c : α)
    (h : l[m]? = some b) : List.Perm (b :: l.set m c) (c :: l) := by
  induction l generalizing m with
  | nil => simp at h
  | cons d t ih =>
    cases m with
    | zero =>
      simp only [List.getElem?_cons_zero, Option.some.injEq] at h
      subst h
      simpa [List.set] using List.Perm.swap c d t
    | succ m =>
      simp only [List.getElem?_cons_succ] at h
      have h1 : List.Perm (b :: d :: t.set m c) (d :: b :: t.set m c) :=
        List.Perm.swap d b (t.set m c)
      have h2 : List.Perm (d :: b :: t.set m c) (d :: c :: t) :=
        List.Perm.cons d (ih m h)
      have h3 : List.Perm (d :: c :: t) (c :: d :: t) := List.Perm.swap c d t
      simpa [List.set] using (h1.trans h2).trans h3

theorem swapList_perm {α : Type} (l : List α) (i j : Nat) :
    List.Perm (swapList l i j) l := by
  induction l generalizing i j with
  | nil => simp [swapList]
  | cons c t ih =>
    cases i with
    | zero =>
      cases j with
      | zero => simp [swapList, List.set]
      | succ k =>
        cases hk : t[k]? with
        | none => simp [swapList, hk]
        | some b =>
          simp only [swapList, List.getElem?_cons_zero,
            List.getElem?_cons_succ, hk, List.set]
          exact cons_set_perm t k b c hk
    | succ m =>
      cases j with
      | zero =>
        cases hm : t[m]? with
        | none => simp [swapList, hm]
        | some a =>
          simp only [swapList, List.getElem?_cons_zero,
            List.getElem?_cons_succ, hm, List.set]
          exact cons_set_perm t m a c hm
      | succ k =>
        cases hm : t[m]? with
        | none => simp [swapList, hm]
        | some a =>
          cases hk : t[k]? with
          | none => simp [swapList, hm, hk]
          | some b =>
            simp only [swapList, List.getElem?_cons_succ, hm, hk, List.set]
            have := ih m k
            simp only [swapList, hm, hk] at this
            exact List.Perm.cons c this

theorem fyStep_perm {α : Type} (rand : Nat → Nat) (i : Nat) (l : List α) :
    List.Perm (fyStep rand i l) l := by
  induction i generalizing l with
  | zero => simp [fyStep]
  | succ i ih =>
    exact (ih _).trans (swapList_perm l (i + 1) (rand (i + 1) % (i + 2)))

theorem shuffleArray_perm {α : Type} (rand : Nat → Nat) (l : List α) :
    List.Perm (shuffleArray rand l) l :=
  fyStep_perm rand (l.length - 1) l

/-- C3: shuffleArray returns a permutation of its input: the result has
the same length and the same multiset of elements as the input, for every
sequence of random draws. -/
theorem shuffleArray_is_permutation {α : Type} (rand : Nat → Nat)
    (l : List α) :
    (shuffleArray rand l).length = l.length ∧
      (shuffleArray rand l : Multiset α) = (l : Multiset α) :=
  ⟨(shuffleArray_perm rand l).length_eq,
    Multiset.coe_eq_coe.mpr (shuffleArray_perm rand l)⟩

/-! ## Server-side query functions (src/lib/quote-service.ts lines 21-98)

The prisma tables are modelled as explicit lists of rows, and
`prisma.quote.findMany`/`prisma.favorite.findMany` with a where clause as
filtering those lists. -/

/-- A row of the prisma Quote table, with the fields the queries touch. -/
structure DbQuote where
  id : String
  text : String
  author : String
  category : Option String
  source : Option String
  isPreloaded : Bool
  userId : Option String
  deriving DecidableEq, Repr

/-- A row of the prisma Favorite table. -/
structure Favorite where
  userId : String
  quoteId : String
  deriving DecidableEq, Repr

/-- The database: the two tables the quote service reads. -/
structure DB where
  quotes : List DbQuote
  favorites : List Favorite
  deriving Repr

/-- The source preference of QuoteServiceOptions. -/
inductive QuoteSource where
  | PRELOADED
  | CUSTOM
  | FAVORITES
  | BOTH
  deriving DecidableEq, Repr

/-- The category part of the where clause: `if (category)
whereClause.category = category`.  The route passes
`searchParams.get(...) || undefined`, so the absent case is `none`. -/
def categoryMatch (category : Option String) (q : DbQuote) : Bool :=
  match category with
  | none => true
  | some c => q.category == some c

/-- `getQuoteIds` of src/lib/quote-service.ts: for FAVORITES it returns
the user's favorite quoteIds directly (before the category clause is
added); otherwise it filters the quote table by the source clause and,
when present, the category, and returns the ids. -/
def getQuoteIds (db : DB) (source : QuoteSource) (userId : String)
    (category : Option String) : List String :=
  match source with
  | .FAVORITES =>
      (db.favorites.filter (fun f => f.userId == userId)).map
        (fun f => f.quoteId)
  | .PRELOADED =>
      ((db.quotes.filter (fun q =>
          q.isPreloaded && categoryMatch category q)).map (fun q => q.id))
  | .CUSTOM =>
      ((db.quotes.filter (fun q =>
          (q.userId == some userId && !q.isPreloaded) &&
            categoryMatch category q)).map (fun q => q.id))
  | .BOTH =>
      ((db.quotes.filter (fun q =>
          (q.isPreloaded || (q.userId == some userId && !q.isPreloaded)) &&
            categoryMatch category q)).map (fun q => q.id))

/-- The record shape returned by getQuotesByIds (the selected columns
plus the computed isFavorited flag; the ISO date formatting is dropped
as the dates play no role in any claim). -/
structure Quote where
  id : String
  text : String
  author : String
  category : Option String
  source : Option String
  isPreloaded : Bool
  isFavorited : Bool
  deriving DecidableEq, Repr

/-- `getQuotesByIds` of src/lib/quote-service.ts: fetch the quotes whose
id is in `ids`, fetch the user's favorites among `ids`, and mark each
quote favorited iff its id is in that favorite set. -/
def getQuotesByIds (db : DB) (ids : List String) (userId : String) :
    List Quote :=
  let quotes := db.quotes.filter (fun q => ids.contains q.id)
  let favoriteSet :=
    (db.favorites.filter (fun f =>
        f.userId == userId && ids.contains f.quoteId)).map (fun f => f.quoteId)
  quotes.map (fun q =>
    { id := q.id, text := q.text, author := q.author, category := q.category,
      source := q.source, isPreloaded := q.isPreloaded,
      isFavorited := favoriteSet.contains q.id })

/-- C7: with source BOTH, getQuoteIds returns exactly the ids of quotes
that are preloaded or were created by the user (userId matches and
isPreloaded is false), restricted to the given category when one is
supplied. -/
theorem getQuoteIds_BOTH_characterization (db : DB) (u : String)
    (cat : Option String) (x : String) :
    x ∈ getQuoteIds db .BOTH u cat ↔
      ∃ q ∈ db.quotes, q.id = x ∧
        (q.isPreloaded = true ∨ (q.userId = some u ∧ q.isPreloaded = false)) ∧
        (∀ c, cat = some c → q.category = some c) := by
  cases cat with
  | none =>
      simp [getQuoteIds, categoryMatch]
      constructor
      · rintro ⟨q, ⟨hq, hw⟩, hid⟩
        refine ⟨q, hq, hid, ?_⟩
        rcases hw with h | ⟨h1, h2⟩
        · exact Or.inl h
        · exact Or.inr ⟨h1, h2⟩
      · rintro ⟨q, hq, hid, hw⟩
        refine ⟨q, ⟨hq, ?_⟩, hid⟩
        rcases hw with h | ⟨h1, h2⟩
        · exact Or.inl h
        · exact Or.inr ⟨h1, h2⟩
  | some c =>
      simp [getQuoteIds, categoryMatch]
      constructor
      · rintro ⟨q, ⟨hq, hw, hc⟩, hid⟩
        refine ⟨q, hq, hid, ?_, hc⟩
        rcases hw with h | ⟨h1, h2⟩
        · exact Or.inl h
        · exact Or.inr ⟨h1, h2⟩
      · rintro ⟨q, hq, hid, hw, hc⟩
        refine ⟨q, ⟨hq, ?_, hc⟩, hid⟩
        rcases hw with h | ⟨h1, h2⟩
        · exact Or.inl h
        · exact Or.inr ⟨h1, h2⟩

/-- C10: with source FAVORITES the category argument has no effect (the
function returns before the category clause is attached), and the result
is exactly the quoteIds of the user's favorite rows. -/
theorem getQuoteIds_FAVORITES_ignores_category (db : DB) (u : String)
    (cat : Option String) :
    getQuoteIds db .FAVORITES u cat = getQuoteIds db .FAVORITES u none ∧
      (∀ x, x ∈ getQuoteIds db .FAVORITES u cat ↔
        ∃ f ∈ db.favorites, f.userId = u ∧ f.quoteId = x) := by
  refine ⟨rfl, fun x => ?_⟩
  simp [getQuoteIds]
  constructor
  · rintro ⟨f, ⟨hf, hu⟩, hx⟩
    exact ⟨f, hf, hu, hx⟩
  · rintro ⟨f, hf, hu, hx⟩
    exact ⟨f, ⟨hf, hu⟩, hx⟩

theorem favoriteSet_contains_iff (favs : List Favorite) (ids : List String)
    (u x : String) (hx : x ∈ ids) :
    ((favs.filter (fun f => f.userId == u && ids.contains f.quoteId)).map
        (fun f => f.quoteId)).contains x = true ↔
      ∃ f ∈ favs, f.userId = u ∧ f.quoteId = x := by
  simp only [List.contains_iff_exists_mem_beq, List.mem_map, List.mem_filter,
    Bool.and_eq_true, beq_iff_eq]
  constructor
  · rintro ⟨y, ⟨f, ⟨hf, hu, hqin⟩, hy⟩, hbeq⟩
    exact ⟨f, hf, hu, hy.trans hbeq.symm⟩
  · rintro ⟨f, hf, hu, hq⟩
    exact ⟨x, ⟨f, ⟨hf, hu, ⟨x, hx, by rw [hq]⟩⟩, hq⟩, rfl⟩

/-- C6: every record returned by getQuotesByIds has its id among the
requested ids, and its isFavorited flag is true iff a favorite row
linking the user to that quote exists. -/
theorem getQuotesByIds_sound (db : DB) (ids : List String) (u : String)
    (r : Quote) (hr : r ∈ getQuotesByIds db ids u) :
    r.id ∈ ids ∧
      (r.isFavorited = true ↔
        ∃ f ∈ db.favorites, f.userId = u ∧ f.quoteId = r.id) := by
  simp only [getQuotesByIds, List.mem_map, List.mem_filter] at hr
  rcases hr with ⟨q, ⟨hq, hin⟩, hr⟩
  subst hr
  have hin2 : q.id ∈ ids := by simpa using hin
  exact ⟨hin2, favoriteSet_contains_iff db.favorites ids u q.id hin2⟩

/-! ## Batch endpoint (src/app/api/quotes/batch/route.ts)

The request body is modelled as a parsed JSON value; `batchSchemaParse`
is the zod schema `z.object({ ids: z.array(z.string()).min(1).max(50) })`:
it succeeds exactly on objects whose "ids" field is an array of strings
of length 1 to 50. -/

/-- A parsed JSON value (the result of request.json()). -/
inductive Json where
  | null
  | bool (b : Bool)
  | num (n : Int)
  | str (s : String)
  | arr (items : List Json)
  | obj (fields : List (String × Json))

/-- z.array(z.string()): all items must be strings. -/
def asStringList : List Json → Option (List String)
  | [] => some []
  | .str s :: rest => (asStringList rest).map (fun xs => s :: xs)
  | _ => none

/-- Field access on a JSON object. -/
def getField (body : Json) (name : String) : Option Json :=
  match body with
  | .obj fields => fields.lookup name
  | _ => none

/-- batchSchema.parse: succeeds iff the body is an object whose ids field
is an array of 1 to 50 strings. -/
def batchSchemaParse (body : Json) : Option (List String) :=
  match getField body "ids" with
  | some (.arr items) =>
      match asStringList items with
      | some ids =>
          if 1 ≤ ids.length ∧ ids.length ≤ 50 then some ids else none
      | none => none
  | _ => none

/-- The response of the POST handler: either the quotes payload (HTTP
200) or an error status. -/
inductive BatchResponse where
  | ok (quotes : List Quote)
  | err (status : Nat)

/-- The POST handler of /api/quotes/batch: 401 without a session, 400
when the zod schema rejects the body, otherwise the getQuotesByIds
payload. -/
def POSTbatch (db : DB) (session : Option String) (body : Json) :
    BatchResponse :=
  match session with
  | none => .err 401
  | some uid =>
      match batchSchemaParse body with
      | some ids => .ok (getQuotesByIds db ids uid)
      | none => .err 400

theorem batchSchemaParse_bounds (body : Json) (ids : List String)
    (h : batchSchemaParse body = some ids) :
    1 ≤ ids.length ∧ ids.length ≤ 50 := by
  unfold batchSchemaParse at h
  split at h
  · split at h
    · split at h
      · cases h
        assumption
      · simp at h
    · simp at h
  · simp at h

/-- C8: for every authenticated request, the handler answers 400 exactly
when the schema rejects the body; when the schema accepts, the id list
has between 1 and 50 entries and the handler answers with the
getQuotesByIds payload for exactly that list. -/
theorem batch_route_validates (db : DB) (uid : String) (body : Json) :
    (batchSchemaParse body = none → POSTbatch db (some uid) body = .err 400) ∧
      (∀ ids, batchSchemaParse body = some ids →
        1 ≤ ids.length ∧ ids.length ≤ 50 ∧
          POSTbatch db (some uid) body = .ok (getQuotesByIds db ids uid)) := by
  constructor
  · intro h
    simp [POSTbatch, h]
  · intro ids h
    rcases batchSchemaParse_bounds body ids h with ⟨h1, h2⟩
    exact ⟨h1, h2, by simp [POSTbatch, h]⟩

/-- A tiny concrete database for witnesses. -/
def dbEx : DB :=
  { quotes := [{ id := "a", text := "t", author := "au", category := none,
                 source := none, isPreloaded := true, userId := none }],
    favorites := [{ userId := "u", quoteId := "a" }] }

/-- Witness for C8: a valid one-id body is served, an empty ids array is
rejected with 400. -/
theorem batch_route_validates_witness :
    POSTbatch dbEx (some "u") (.obj [("ids", .arr [.str "a"])]) =
        .ok (getQuotesByIds dbEx ["a"] "u") ∧
      POSTbatch dbEx (some "u") (.obj [("ids", .arr [])]) = .err 400 :=
  ⟨((batch_route_validates dbEx "u"
      (.obj [("ids", .arr [.str "a"])])).2 ["a"] rfl).2.2,
    (batch_route_validates dbEx "u" (.obj [("ids", .arr [])])).1 rfl⟩

/-! ## The client hook (src/hooks/use-optimized-quotes.ts)

Embedded as explicit state passing with the hook's closure semantics
made explicit.  The useState variables and the fetchedIds ref form a
HookState record.  Within one getNextQuote call, reads of quotesCache
consult the render-captured map (onSuccess copies the map and calls
setQuotesCache, so the captured map never changes), the
prefetchNextBatch closure reads the render-captured currentIdIndex, and
the fetchedIds ref is always current; the pending setter writes are
threaded through the state, so each subsequent session operation starts
from the re-rendered state.  The two endpoints the hook talks to are
the environment: `server i` is the record the batch endpoint delivers
for id `i`, and `rand` supplies the Math.random draws of reshuffles. -/

/-- A network request issued by the hook. -/
inductive Req where
  | batch (ids : List String)
  | listIds
  deriving DecidableEq, Repr

/-- The ids a request asks the batch endpoint for. -/
def reqIds : Req → List String
  | .batch ids => ids
  | .listIds => []

/-- The hook's state: the useState variables plus the fetchedIds ref.
The quotes cache is a JS Map, modelled as an association list with
unique-key update semantics. -/
structure HookState where
  allQuoteIds : List String
  shuffledIds : List String
  currentIdIndex : Nat
  quotesCache : List (String × Quote)
  currentQuote : Option Quote
  fetchedIds : List String
  deriving Repr

/-- Map.get on the cache. -/
def mapGet (m : List (String × Quote)) (k : String) : Option Quote :=
  (m.find? (fun p => p.1 == k)).map (fun p => p.2)

/-- Replace the entry at key `k` (helper of mapSet). -/
def setEntry (k : String) (v : Quote) (p : String × Quote) : String × Quote :=
  if p.1 == k then (k, v) else p

/-- Map.set on the cache: replace the entry in place when the key is
present, else append a new entry. -/
def mapSet (m : List (String × Quote)) (k : String) (v : Quote) :
    List (String × Quote) :=
  if m.any (fun p => p.1 == k) then m.map (setEntry k v)
  else m ++ [(k, v)]

/-- The environment of one session: the batch endpoint's record for each
id (none when the database has no such row) and the Math.random draws. -/
structure Env where
  server : String → Option Quote
  rand : Nat → Nat

/-- A well-behaved batch endpoint: every id it is asked for is answered
by a record carrying that id.  The hook only ever asks for ids obtained
from the ids endpoint, which lists rows of the same database the batch
endpoint queries. -/
def EnvComplete (env : Env) : Prop :=
  ∀ i, ∃ q, env.server i = some q ∧ q.id = i

/-- The body of the batch response for a request: one record per
requested id found in the database. -/
def batchResponse (env : Env) (ids : List String) : List Quote :=
  ids.filterMap env.server

/-- The forEach of fetchBatchMutation.onSuccess on the fetchedIds ref:
add each returned quote's id to the set. -/
def addFetched (fs : List String) (qs : List Quote) : List String :=
  qs.foldl (fun fs2 q => if fs2.contains q.id then fs2 else fs2 ++ [q.id]) fs

/-- The forEach of fetchBatchMutation.onSuccess on the cache copy:
newCache.set(quote.id, quote) for each returned quote. -/
def cacheInsertAll (m : List (String × Quote)) (qs : List Quote) :
    List (String × Quote) :=
  qs.foldl (fun m2 q => mapSet m2 q.id q) m

/-- fetchBatchMutation.onSuccess: write every returned quote into the
cache and record its id in fetchedIds. -/
def onBatchSuccess (s : HookState) (qs : List Quote) : HookState :=
  { s with
    quotesCache := cacheInsertAll s.quotesCache qs,
    fetchedIds := addFetched s.fetchedIds qs }

/-- A successful fetchBatchMutation run for `ids`: the response is
applied by onSuccess. -/
def fetchBatch (env : Env) (s : HookState) (ids : List String) : HookState :=
  onBatchSuccess s (batchResponse env ids)

/-- The batch request prefetchNextBatch issues, if any: the unfetched
ids among the next batchSize entries of the shuffle, provided that
window has an unfetched id and at most prefetchThreshold + batchSize
ids remain past currentIdIndex (and nothing on an empty shuffle). -/
def prefetchRequest (s : HookState) (batchSize prefetchThreshold : Nat) :
    Option (List String) :=
  if s.shuffledIds.length = 0 then none
  else
    let remainingIds := s.shuffledIds.length - s.currentIdIndex
    let nextBatchIds :=
      ((s.shuffledIds.take (s.currentIdIndex + batchSize)).drop
          s.currentIdIndex).filter (fun i => !s.fetchedIds.contains i)
    if 0 < nextBatchIds.length ∧
        remainingIds ≤ prefetchThreshold + batchSize then
      some nextBatchIds
    else none

/-- prefetchNextBatch as a state step: issue the request when there is
one and apply its response. -/
def prefetchStep (env : Env) (batchSize prefetchThreshold : Nat)
    (s : HookState) : HookState × List Req :=
  match prefetchRequest s batchSize prefetchThreshold with
  | some ids => (fetchBatch env s ids, [Req.batch ids])
  | none => (s, [])

/-- The idsToFetch slice of getNextQuote: the unfetched ids among
shuffledIds.slice(nextIndex, batchEnd), filtered against the
fetchedIds ref. -/
def fetchWindow (s : HookState) (b nextIndex : Nat) : List String :=
  ((s.shuffledIds.take (min (nextIndex + b) s.shuffledIds.length)).drop
      nextIndex).filter (fun i => !s.fetchedIds.contains i)

/-- The two setters run when the loop has found a quote:
setCurrentQuote(quote) and setCurrentIdIndex(nextIndex + 1). -/
def serveUpdate (s1 : HookState) (nextIndex : Nat) (q : Quote) :
    HookState :=
  { s1 with currentQuote := some q, currentIdIndex := nextIndex + 1 }

/-- The state the prefetchNextBatch closure invoked from getNextQuote
sees: shuffledIds is the render value (no statement before the call
changes it), fetchedIds is the ref (current), but currentIdIndex is the
render value `idx0` captured when the callbacks were created, not the
index the loop just set. -/
def closureView (s2 : HookState) (idx0 : Nat) : HookState :=
  { s2 with currentIdIndex := idx0 }

/-- The prefetchNextBatch() call inside getNextQuote: the request is
computed from the closure's view of the state, and its response
(onSuccess) updates the threaded state. -/
def prefetchFire (env : Env) (batchSize prefetchThreshold : Nat)
    (view s2 : HookState) : HookState × List Req :=
  match prefetchRequest view batchSize prefetchThreshold with
  | some ids => (fetchBatch env s2 ids, [Req.batch ids])
  | none => (s2, [])

/-- The while loop of getNextQuote.  `fuel` bounds the remaining
iterations (the loop moves nextIndex towards shuffledIds.length, which
no statement inside the loop body changes).  `cache0` is the
render-captured quotesCache: every `quotesCache.get(nextId)` of the
call reads it, including the re-read after the awaited mutation, because
onSuccess builds a new Map and calls setQuotesCache without mutating the
captured one - so a body fetched during the call is never visible to the
same call.  `idx0` is the render-captured currentIdIndex the
prefetchNextBatch closure reads.  The fetchedIds ref and the pending
state writes are threaded through `s`.  Returns the final state and the
requests issued, in order. -/
def getNextQuoteLoop (env : Env) (batchSize prefetchThreshold : Nat)
    (cache0 : List (String × Quote)) (idx0 : Nat) :
    Nat → HookState → Nat → HookState × List Req
  | 0, s, _ => (s, [])
  | fuel + 1, s, nextIndex =>
    if nextIndex < s.shuffledIds.length then
      let nextId := s.shuffledIds.getD nextIndex ""
      let step :=
        match mapGet cache0 nextId with
        | some q => (s, ([] : List Req), some q)
        | none =>
            if s.fetchedIds.contains nextId then (s, [], none)
            else
              let idsToFetch := fetchWindow s batchSize nextIndex
              if 0 < idsToFetch.length then
                (fetchBatch env s idsToFetch, [Req.batch idsToFetch],
                  mapGet cache0 nextId)
              else (s, [], none)
      match step with
      | (s1, reqs1, some q) =>
          let s2 := serveUpdate s1 nextIndex q
          let pre := prefetchFire env batchSize prefetchThreshold
            (closureView s2 idx0) s2
          let s4 :=
            if s.shuffledIds.length ≤ nextIndex + 1 then
              { pre.1 with
                shuffledIds := shuffleArray env.rand pre.1.allQuoteIds,
                currentIdIndex := 0 }
            else pre.1
          (s4, reqs1 ++ pre.2)
      | (s1, reqs1, none) =>
          let rest := getNextQuoteLoop env batchSize prefetchThreshold
            cache0 idx0 fuel s1 (nextIndex + 1)
          (rest.1, reqs1 ++ rest.2)
    else (s, [])

/-- getNextQuote: nothing on an empty shuffle, else run the loop from
currentIdIndex, reading the render-captured cache and index. -/
def getNextQuote (env : Env) (batchSize prefetchThreshold : Nat)
    (s : HookState) : HookState × List Req :=
  if s.shuffledIds.length = 0 then (s, [])
  else
    getNextQuoteLoop env batchSize prefetchThreshold s.quotesCache
      s.currentIdIndex (s.shuffledIds.length - s.currentIdIndex) s
      s.currentIdIndex

/-- toggleFavorite: flip the flag optimistically in the cache copy (and
on currentQuote when it is the toggled quote), then persist; `ok` says
whether the persistence request succeeded; on failure the same cache
copy is written back with the original quote and currentQuote is
restored. -/
def toggleFavorite (s : HookState) (quoteId : String) (ok : Bool) :
    HookState :=
  match mapGet s.quotesCache quoteId with
  | none => s
  | some quote =>
      let updated := { quote with isFavorited := !quote.isFavorited }
      let cache1 := mapSet s.quotesCache quoteId updated
      let s1 :=
        { s with
          quotesCache := cache1,
          currentQuote :=
            if s.currentQuote.map (fun q => q.id) = some quoteId then
              some updated
            else s.currentQuote }
      if ok then s1
      else
        { s1 with
          quotesCache := mapSet cache1 quoteId quote,
          currentQuote :=
            if s.currentQuote.map (fun q => q.id) = some quoteId then
              some quote
            else s1.currentQuote }

/-- The hook operations a session interleaves (reset is excluded: it
clears fetchedIds and re-queries the ids endpoint, beginning a new
session). -/
inductive SessionOp where
  | next
  | prefetch
  | toggle (quoteId : String) (ok : Bool)
  deriving Repr

/-- Run a session: perform the operations in order, collecting every
request issued. -/
def runSession (env : Env) (batchSize prefetchThreshold : Nat) :
    List SessionOp → HookState → HookState × List Req
  | [], s => (s, [])
  | op :: ops, s =>
      let step :=
        match op with
        | .next => getNextQuote env batchSize prefetchThreshold s
        | .prefetch => prefetchStep env batchSize prefetchThreshold s
        | .toggle quoteId ok => (toggleFavorite s quoteId ok, [])
      let rest := runSession env batchSize prefetchThreshold ops step.1
      (rest.1, step.2 ++ rest.2)

/-! ## Cache map lemmas -/

theorem find?_map_replace (m : List (String × Quote)) (k : String)
    (v : Quote) :
    (m.map (setEntry k v)).find? (fun p => p.1 == k) =
      if m.any (fun p => p.1 == k) then some (k, v) else none := by
  induction m with
  | nil => rfl
  | cons p rest ih =>
    rw [List.map_cons, List.any_cons]
    by_cases hpk : p.1 = k
    · have hb : (p.1 == k) = true := by simpa using hpk
      have hf : setEntry k v p = (k, v) := by simp [setEntry, hb]
      rw [hf, hb, Bool.true_or, if_pos rfl, List.find?_cons_of_pos]
      simp
    · have hb : (p.1 == k) = false := by simpa using hpk
      have hf : setEntry k v p = p := by simp [setEntry, hb]
      rw [hf, hb, Bool.false_or, List.find?_cons_of_neg]
      · exact ih
      · simp [hb]

theorem find?_map_replace_ne (m : List (String × Quote)) (k k2 : String)
    (v : Quote) (h : ¬ k2 = k) :
    (m.map (setEntry k v)).find? (fun p => p.1 == k2) =
      m.find? (fun p => p.1 == k2) := by
  induction m with
  | nil => rfl
  | cons p rest ih =>
    rw [List.map_cons]
    by_cases hpk : p.1 = k
    · have hf : setEntry k v p = (k, v) := by simp [setEntry, hpk]
      rw [hf, List.find?_cons_of_neg, List.find?_cons_of_neg]
      · exact ih
      · simp [hpk]
        exact fun e => h e.symm
      · simp
        exact fun e => h e.symm
    · have hf : setEntry k v p = p := by simp [setEntry, hpk]
      rw [hf]
      by_cases hq2 : p.1 = k2
      · rw [List.find?_cons_of_pos, List.find?_cons_of_pos] <;> simp [hq2]
      · rw [List.find?_cons_of_neg, List.find?_cons_of_neg]
        · exact ih
        · simp [hq2]
        · simp [hq2]

theorem mapGet_mapSet_self (m : List (String × Quote)) (k : String)
    (v : Quote) : mapGet (mapSet m k v) k = some v := by
  unfold mapGet mapSet
  by_cases h : (m.any fun p => p.1 == k) = true
  · rw [if_pos h, find?_map_replace, if_pos h]
    rfl
  · rw [if_neg h, List.find?_append]
    have hnone : m.find? (fun p => p.1 == k) = none := by
      rw [List.find?_eq_none]
      intro p hp hc
      exact h (List.any_eq_true.mpr ⟨p, hp, hc⟩)
    rw [hnone]
    simp [List.find?_cons]

theorem mapGet_mapSet_ne (m : List (String × Quote)) (k k2 : String)
    (v : Quote) (h : ¬ k2 = k) :
    mapGet (mapSet m k v) k2 = mapGet m k2 := by
  unfold mapGet mapSet
  by_cases ha : (m.any fun p => p.1 == k) = true
  · rw [if_pos ha, find?_map_replace_ne m k k2 v h]
  · rw [if_neg ha, List.find?_append]
    have h1 : ([(k, v)].find? (fun p => p.1 == k2)) = none := by
      rw [List.find?_cons_of_neg]
      · rfl
      · simp only [beq_iff_eq]
        intro e
        exact h e.symm
    rw [h1]
    simp

/-! ## C5: the prefetch condition -/

theorem prefetchRequest_eq (s : HookState) (b t : Nat) :
    prefetchRequest s b t =
      (if 0 < s.shuffledIds.length ∧
          0 < (((s.shuffledIds.drop s.currentIdIndex).take b).filter
              (fun i => !s.fetchedIds.contains i)).length ∧
          s.shuffledIds.length - s.currentIdIndex ≤ t + b then
        some (((s.shuffledIds.drop s.currentIdIndex).take b).filter
            (fun i => !s.fetchedIds.contains i))
      else none) := by
  unfold prefetchRequest
  rw [show (s.shuffledIds.take (s.currentIdIndex + b)).drop s.currentIdIndex
        = (s.shuffledIds.drop s.currentIdIndex).take b by
      simp [List.drop_take]]
  by_cases h0 : s.shuffledIds.length = 0
  · simp [h0]
  · have hpos : 0 < s.shuffledIds.length := Nat.pos_of_ne_zero h0
    simp only [h0, if_false, hpos, true_and]

/-- C5: prefetchNextBatch issues a batch request iff the shuffle is
non-empty, the window of the next batchSize ids starting at
currentIdIndex contains at least one unfetched id, and at most
prefetchThreshold + batchSize ids remain past currentIdIndex; and the
request is exactly the unfetched ids of that window. -/
theorem prefetchRequest_characterization (s : HookState) (b t : Nat) :
    prefetchRequest s b t =
      (if 0 < s.shuffledIds.length ∧
          0 < (((s.shuffledIds.drop s.currentIdIndex).take b).filter
              (fun i => !s.fetchedIds.contains i)).length ∧
          s.shuffledIds.length - s.currentIdIndex ≤ t + b then
        some (((s.shuffledIds.drop s.currentIdIndex).take b).filter
            (fun i => !s.fetchedIds.contains i))
      else none) :=
  prefetchRequest_eq s b t

/-! ## C9: toggleFavorite reverts on persistence failure -/

/-- C9: when the persistence request fails, toggleFavorite restores the
cache (pointwise, in particular the toggled quote's entry) and
currentQuote to their values before the call.  The hsync hypothesis ties
currentQuote to the cache entry when it shows the toggled quote; the
hook always writes the two together, so it holds in every reachable
state. -/
theorem toggleFavorite_reverts_on_error (s : HookState) (quoteId : String)
    (quote : Quote) (hq : mapGet s.quotesCache quoteId = some quote)
    (hsync : ∀ cq, s.currentQuote = some cq → cq.id = quoteId →
      cq = quote) :
    (∀ k, mapGet (toggleFavorite s quoteId false).quotesCache k =
        mapGet s.quotesCache k) ∧
      (toggleFavorite s quoteId false).currentQuote = s.currentQuote := by
  unfold toggleFavorite
  rw [hq]
  simp only [Bool.false_eq_true, if_false]
  constructor
  · intro k
    by_cases hk : k = quoteId
    · subst hk
      rw [mapGet_mapSet_self, hq]
    · rw [mapGet_mapSet_ne _ _ _ _ hk, mapGet_mapSet_ne _ _ _ _ hk]
  · by_cases hc : s.currentQuote.map (fun q => q.id) = some quoteId
    · rw [if_pos hc]
      cases hcur : s.currentQuote with
      | none => rw [hcur] at hc; simp at hc
      | some cq =>
          rw [hcur] at hc
          have hcid : cq.id = quoteId := by simpa using hc
          rw [hsync cq hcur hcid]
    · rw [if_neg hc, if_neg hc]

/-! ## Step lemmas for the hook -/

theorem fetchBatch_fields (env : Env) (s : HookState) (ids : List String) :
    (fetchBatch env s ids).allQuoteIds = s.allQuoteIds ∧
      (fetchBatch env s ids).shuffledIds = s.shuffledIds ∧
      (fetchBatch env s ids).currentIdIndex = s.currentIdIndex ∧
      (fetchBatch env s ids).currentQuote = s.currentQuote :=
  ⟨rfl, rfl, rfl, rfl⟩

theorem prefetchStep_fields (env : Env) (b t : Nat) (s : HookState) :
    (prefetchStep env b t s).1.allQuoteIds = s.allQuoteIds ∧
      (prefetchStep env b t s).1.shuffledIds = s.shuffledIds ∧
      (prefetchStep env b t s).1.currentIdIndex = s.currentIdIndex ∧
      (prefetchStep env b t s).1.currentQuote = s.currentQuote := by
  unfold prefetchStep
  cases prefetchRequest s b t with
  | none => exact ⟨rfl, rfl, rfl, rfl⟩
  | some ids => exact ⟨rfl, rfl, rfl, rfl⟩

theorem mem_addFetched (fs : List String) (qs : List Quote) (x : String) :
    x ∈ addFetched fs qs ↔ x ∈ fs ∨ ∃ q ∈ qs, q.id = x := by
  induction qs generalizing fs with
  | nil => simp [addFetched]
  | cons q rest ih =>
    show x ∈ addFetched (if fs.contains q.id then fs else fs ++ [q.id]) rest
      ↔ _
    rw [ih]
    by_cases hc : fs.contains q.id = true
    · rw [if_pos hc]
      have hqid : q.id ∈ fs := by simpa using hc
      constructor
      · rintro (h | h)
        · exact Or.inl h
        · exact Or.inr (by simpa using Or.inr h)
      · rintro (h | h)
        · exact Or.inl h
        · rcases (by simpa using h :
              q.id = x ∨ ∃ q2 ∈ rest, q2.id = x) with h2 | h2
          · exact Or.inl (h2 ▸ hqid)
          · exact Or.inr h2
    · rw [if_neg hc]
      constructor
      · rintro (h | h)
        · rcases List.mem_append.mp h with h2 | h2
          · exact Or.inl h2
          · exact Or.inr ⟨q, List.mem_cons_self q rest,
              (by simpa using h2 : x = q.id).symm⟩
        · exact Or.inr (by simpa using Or.inr h)
      · rintro (h | h)
        · exact Or.inl (List.mem_append.mpr (Or.inl h))
        · rcases (by simpa using h :
              q.id = x ∨ ∃ q2 ∈ rest, q2.id = x) with h2 | h2
          · exact Or.inl (List.mem_append.mpr (Or.inr (by simp [h2])))
          · exact Or.inr h2

theorem mem_fetched_fetchBatch (env : Env) (henv : EnvComplete env)
    (s : HookState) (ids : List String) (x : String) :
    x ∈ (fetchBatch env s ids).fetchedIds ↔
      x ∈ s.fetchedIds ∨ x ∈ ids := by
  show x ∈ addFetched s.fetchedIds (ids.filterMap env.server) ↔ _
  rw [mem_addFetched]
  constructor
  · rintro (h | ⟨q, hq, hid⟩)
    · exact Or.inl h
    · rcases List.mem_filterMap.mp hq with ⟨i, hi, hsi⟩
      rcases henv i with ⟨q2, hq2, hid2⟩
      rw [hq2] at hsi
      cases hsi
      right
      rw [← hid, hid2]
      exact hi
  · rintro (h | h)
    · exact Or.inl h
    · rcases henv x with ⟨q, hq, hid⟩
      exact Or.inr ⟨q, List.mem_filterMap.mpr ⟨x, h, hq⟩, hid⟩

theorem fetched_mono_fetchBatch (env : Env) (s : HookState)
    (ids : List String) (x : String) (h : x ∈ s.fetchedIds) :
    x ∈ (fetchBatch env s ids).fetchedIds := by
  show x ∈ addFetched s.fetchedIds (ids.filterMap env.server)
  exact (mem_addFetched _ _ _).mpr (Or.inl h)

theorem mapGet_cacheInsertAll_of_ne (m : List (String × Quote))
    (qs : List Quote) (k : String) (h : ∀ q ∈ qs, ¬ q.id = k) :
    mapGet (cacheInsertAll m qs) k = mapGet m k := by
  induction qs generalizing m with
  | nil => rfl
  | cons q0 rest ih =>
    show mapGet (cacheInsertAll (mapSet m q0.id q0) rest) k = _
    rw [ih (mapSet m q0.id q0)
      (fun q2 h2 => h q2 (List.mem_cons_of_mem q0 h2))]
    exact mapGet_mapSet_ne m q0.id k q0
      (fun e => h q0 (List.mem_cons_self q0 rest) e.symm)

theorem mapGet_cacheInsertAll_mem (m : List (String × Quote))
    (qs : List Quote) (q : Quote) (hq : q ∈ qs)
    (huniq : ∀ q2 ∈ qs, q2.id = q.id → q2 = q) :
    mapGet (cacheInsertAll m qs) q.id = some q := by
  induction qs generalizing m with
  | nil => simp at hq
  | cons q0 rest ih =>
    show mapGet (cacheInsertAll (mapSet m q0.id q0) rest) q.id = some q
    by_cases hr : q ∈ rest
    · exact ih (mapSet m q0.id q0) hr
        (fun q2 h2 => huniq q2 (List.mem_cons_of_mem q0 h2))
    · have hq0 : q0 = q := by
        cases List.mem_cons.mp hq with
        | inl h => exact h.symm
        | inr h => exact absurd h hr
      subst hq0
      have hrest : ∀ q2 ∈ rest, ¬ q2.id = q0.id := by
        intro q2 h2 hid
        have := huniq q2 (List.mem_cons_of_mem q0 h2) hid
        rw [this] at h2
        exact hr h2
      rw [mapGet_cacheInsertAll_of_ne _ _ _ hrest]
      exact mapGet_mapSet_self m q0.id q0

theorem mapGet_fetchBatch_of_mem (env : Env) (henv : EnvComplete env)
    (s : HookState) (ids : List String) (i : String) (hi : i ∈ ids) :
    ∃ q, env.server i = some q ∧ q.id = i ∧
      mapGet (fetchBatch env s ids).quotesCache i = some q := by
  rcases henv i with ⟨q, hq, hid⟩
  refine ⟨q, hq, hid, ?_⟩
  show mapGet (cacheInsertAll s.quotesCache (ids.filterMap env.server)) i
    = some q
  rw [← hid]
  apply mapGet_cacheInsertAll_mem
  · exact List.mem_filterMap.mpr ⟨i, hi, hid ▸ hq⟩
  · intro q2 h2 hid2
    rcases List.mem_filterMap.mp h2 with ⟨j, hj, hsj⟩
    rcases henv j with ⟨q3, hq3, hid3⟩
    rw [hq3] at hsj
    cases hsj
    have hjq : j = i := by rw [← hid3, hid2, hid]
    rw [hjq] at hq3
    rw [hq] at hq3
    cases hq3
    rfl

theorem prefetchStep_reqs (env : Env) (b t : Nat) (s : HookState) :
    ∀ r ∈ (prefetchStep env b t s).2, ∃ ids, r = Req.batch ids ∧
      prefetchRequest s b t = some ids := by
  unfold prefetchStep
  cases h : prefetchRequest s b t with
  | none =>
      intro r hr
      simp at hr
  | some ids =>
      intro r hr
      simp at hr
      exact ⟨ids, hr, rfl⟩

theorem getD_eq_getElem_of_lt (l : List String) (i : Nat)
    (h : i < l.length) : l.getD i "" = l[i] := by
  simp [List.getD_eq_getElem?_getD, List.getElem?_eq_getElem h]

theorem getElem_mem_take_drop (l : List String) (i e : Nat) (hi : i < e)
    (he : e ≤ l.length) :
    l.get ⟨i, lt_of_lt_of_le hi he⟩ ∈ (l.take e).drop i := by
  have hlen : ((l.take e).drop i).length = e - i := by
    simp [List.length_drop, List.length_take]
    omega
  have h0 : 0 < ((l.take e).drop i).length := by omega
  rw [List.mem_iff_getElem]
  refine ⟨0, h0, ?_⟩
  rw [List.getElem_drop, List.getElem_take]
  simp

theorem prefetchFire_fields (env : Env) (b t : Nat)
    (view s2 : HookState) :
    (prefetchFire env b t view s2).1.allQuoteIds = s2.allQuoteIds ∧
      (prefetchFire env b t view s2).1.shuffledIds = s2.shuffledIds ∧
      (prefetchFire env b t view s2).1.currentIdIndex
        = s2.currentIdIndex ∧
      (prefetchFire env b t view s2).1.currentQuote = s2.currentQuote := by
  unfold prefetchFire
  cases prefetchRequest view b t with
  | none => exact ⟨rfl, rfl, rfl, rfl⟩
  | some ids => exact ⟨rfl, rfl, rfl, rfl⟩

theorem prefetchFire_reqs (env : Env) (b t : Nat) (view s2 : HookState) :
    ∀ r ∈ (prefetchFire env b t view s2).2, ∃ ids, r = Req.batch ids ∧
      prefetchRequest view b t = some ids := by
  unfold prefetchFire
  cases h : prefetchRequest view b t with
  | none =>
      intro r hr
      simp at hr
  | some ids =>
      intro r hr
      simp at hr
      exact ⟨ids, hr, rfl⟩

theorem getNextQuoteLoop_serve_cached (env : Env) (b t : Nat)
    (cache0 : List (String × Quote)) (idx0 fuel : Nat)
    (s : HookState) (nextIndex : Nat) (q : Quote)
    (hlt : nextIndex < s.shuffledIds.length)
    (hq : mapGet cache0 (s.shuffledIds.getD nextIndex "") = some q) :
    getNextQuoteLoop env b t cache0 idx0 (fuel + 1) s nextIndex =
      ((if s.shuffledIds.length ≤ nextIndex + 1 then
          { (prefetchFire env b t
              (closureView (serveUpdate s nextIndex q) idx0)
              (serveUpdate s nextIndex q)).1 with
            shuffledIds := shuffleArray env.rand
              (prefetchFire env b t
                (closureView (serveUpdate s nextIndex q) idx0)
                (serveUpdate s nextIndex q)).1.allQuoteIds,
            currentIdIndex := 0 }
        else (prefetchFire env b t
            (closureView (serveUpdate s nextIndex q) idx0)
            (serveUpdate s nextIndex q)).1),
        (prefetchFire env b t
          (closureView (serveUpdate s nextIndex q) idx0)
          (serveUpdate s nextIndex q)).2) := by
  simp only [getNextQuoteLoop]
  rw [if_pos hlt, hq]
  rfl

/-- C4: when getNextQuote serves the last identifier of the shuffle (the
advanced position reaches the list's length; here the last id's body is
already cached), it replaces shuffledIds with a fresh local shuffle of
allQuoteIds, resets currentIdIndex to 0, and issues no request to the
ids endpoint (every request in the log is a batch request). -/
theorem getNextQuote_reshuffles_at_end (env : Env) (b t : Nat)
    (s : HookState) (q : Quote)
    (hidx : s.currentIdIndex + 1 = s.shuffledIds.length)
    (hq : mapGet s.quotesCache
      (s.shuffledIds.getD s.currentIdIndex "") = some q) :
    (getNextQuote env b t s).1.shuffledIds
        = shuffleArray env.rand s.allQuoteIds ∧
      (getNextQuote env b t s).1.currentIdIndex = 0 ∧
      ∀ r ∈ (getNextQuote env b t s).2, r ≠ Req.listIds := by
  have hlt : s.currentIdIndex < s.shuffledIds.length := by omega
  have hne : ¬ s.shuffledIds.length = 0 := by omega
  have hfuel : s.shuffledIds.length - s.currentIdIndex = 0 + 1 := by omega
  have hall : (prefetchFire env b t
      (closureView (serveUpdate s s.currentIdIndex q) s.currentIdIndex)
      (serveUpdate s s.currentIdIndex q)).1.allQuoteIds
      = s.allQuoteIds :=
    (prefetchFire_fields env b t _ _).1
  unfold getNextQuote
  rw [if_neg hne, hfuel,
    getNextQuoteLoop_serve_cached env b t s.quotesCache s.currentIdIndex 0
      s s.currentIdIndex q hlt hq,
    if_pos (by omega : s.shuffledIds.length ≤ s.currentIdIndex + 1)]
  refine ⟨by rw [hall], rfl, ?_⟩
  intro r hr
  rcases prefetchFire_reqs env b t _ _ r hr with ⟨ids, hid, _⟩
  rw [hid]
  intro hcontra
  cases hcontra

/-! ## Concrete fixtures for witnesses and counterexamples -/

/-- A stock quote body for id `i`. -/
def qOf (i : String) : Quote :=
  { id := i, text := "t", author := "a", category := none, source := none,
    isPreloaded := true, isFavorited := false }

/-- A fully stocked environment: the server has a body for every id. -/
def envEx : Env := { server := fun i => some (qOf i), rand := fun _ => 0 }

theorem envEx_complete : EnvComplete envEx := fun i => ⟨qOf i, rfl, rfl⟩

/-- A fresh session state over a single-id shuffle. -/
def sLast : HookState :=
  { allQuoteIds := ["a"], shuffledIds := ["a"], currentIdIndex := 0,
    quotesCache := [], currentQuote := none, fetchedIds := [] }

/-- A fresh session state over a two-id shuffle. -/
def sTwo : HookState :=
  { allQuoteIds := ["a", "b"], shuffledIds := ["a", "b"],
    currentIdIndex := 0, quotesCache := [], currentQuote := none,
    fetchedIds := [] }

/-- A state positioned at the last id of the shuffle, its body cached. -/
def sEnd : HookState :=
  { allQuoteIds := ["a", "b"], shuffledIds := ["b"], currentIdIndex := 0,
    quotesCache := [("b", qOf "b")], currentQuote := some (qOf "b"),
    fetchedIds := ["b"] }

/-- C2: the code evaluated at the failing input.  In a fresh state
whose single shuffled id "a" is uncached and unfetched, getNextQuote
issues the batch request for ["a"] and its onSuccess marks the id
fetched, but the re-read after the awaited mutation consults the
render-captured map, which setQuotesCache never mutates - so the call
ends without setting currentQuote or advancing currentIdIndex, against
the claim's "sets currentQuote to the quote whose id is that identifier
and advances currentIdIndex by one". -/
theorem getNextQuote_stale_cache_bug :
    mapGet sLast.quotesCache
        (sLast.shuffledIds.getD sLast.currentIdIndex "") = none ∧
      ¬ sLast.shuffledIds.getD sLast.currentIdIndex ""
          ∈ sLast.fetchedIds ∧
      (getNextQuote envEx 20 5 sLast).2 = [Req.batch ["a"]] ∧
      (getNextQuote envEx 20 5 sLast).1.fetchedIds = ["a"] ∧
      (getNextQuote envEx 20 5 sLast).1.currentQuote = none ∧
      (getNextQuote envEx 20 5 sLast).1.currentIdIndex
        = sLast.currentIdIndex := by
  decide

/-- Witness for C4 at a concrete end-of-shuffle state. -/
theorem getNextQuote_reshuffles_at_end_witness :
    (getNextQuote envEx 20 5 sEnd).1.shuffledIds
        = shuffleArray envEx.rand sEnd.allQuoteIds ∧
      (getNextQuote envEx 20 5 sEnd).1.currentIdIndex = 0 ∧
      ∀ r ∈ (getNextQuote envEx 20 5 sEnd).2, r ≠ Req.listIds :=
  getNextQuote_reshuffles_at_end envEx 20 5 sEnd (qOf "b") (by decide) rfl

/-- A state whose current quote is the cached quote "a". -/
def sFav : HookState :=
  { allQuoteIds := ["a"], shuffledIds := ["a"], currentIdIndex := 1,
    quotesCache := [("a", qOf "a")], currentQuote := some (qOf "a"),
    fetchedIds := ["a"] }

/-- Witness for C9 at a concrete state. -/
theorem toggleFavorite_reverts_on_error_witness :
    (∀ k, mapGet (toggleFavorite sFav "a" false).quotesCache k
        = mapGet sFav.quotesCache k) ∧
      (toggleFavorite sFav "a" false).currentQuote = sFav.currentQuote :=
  toggleFavorite_reverts_on_error sFav "a" (qOf "a") rfl
    (fun cq hcq _ => (Option.some.inj hcq).symm)

/-- The record getQuotesByIds dbEx ["a"] "u" returns. -/
def rEx : Quote :=
  { id := "a", text := "t", author := "au", category := none,
    source := none, isPreloaded := true, isFavorited := true }

/-- Witness for C6 at a concrete database and request. -/
theorem getQuotesByIds_sound_witness :
    rEx.id ∈ ["a"] ∧
      (rEx.isFavorited = true ↔
        ∃ f ∈ dbEx.favorites, f.userId = "u" ∧ f.quoteId = rEx.id) :=
  getQuotesByIds_sound dbEx ["a"] "u" rEx (by decide)

/-! ## C1: no quote body is requested twice in a session -/

/-- The freshness contract of a step out of state `s`: every batch
request issued asks only for ids that were not in the fetchedIds set,
the fetchedIds set only grows, every requested id ends up in the
fetchedIds set, and no two requests of the step share an id. -/
def FreshProps (s : HookState) (out : HookState × List Req) : Prop :=
  (∀ ids2, Req.batch ids2 ∈ out.2 → ∀ x ∈ ids2, ¬ x ∈ s.fetchedIds) ∧
    (∀ x ∈ s.fetchedIds, x ∈ out.1.fetchedIds) ∧
    (∀ ids2, Req.batch ids2 ∈ out.2 → ∀ x ∈ ids2, x ∈ out.1.fetchedIds) ∧
    List.Pairwise (fun r1 r2 => ∀ x ∈ reqIds r1, ¬ x ∈ reqIds r2) out.2

theorem FreshProps_nil (s s2 : HookState)
    (hf : ∀ x ∈ s.fetchedIds, x ∈ s2.fetchedIds) :
    FreshProps s (s2, []) :=
  ⟨by simp, hf, by simp, List.Pairwise.nil⟩

theorem FreshProps_comp (s s1 s2 : HookState) (r1 r2 : List Req)
    (h1 : FreshProps s (s1, r1)) (h2 : FreshProps s1 (s2, r2)) :
    FreshProps s (s2, r1 ++ r2) := by
  obtain ⟨a1, b1, c1, d1⟩ := h1
  obtain ⟨a2, b2, c2, d2⟩ := h2
  refine ⟨?_, ?_, ?_, ?_⟩
  · intro ids2 hmem x hx
    rcases List.mem_append.mp hmem with h | h
    · exact a1 ids2 h x hx
    · intro hin
      exact a2 ids2 h x hx (b1 x hin)
  · intro x hx
    exact b2 x (b1 x hx)
  · intro ids2 hmem x hx
    rcases List.mem_append.mp hmem with h | h
    · exact b2 _ (c1 ids2 h x hx)
    · exact c2 ids2 h x hx
  · rw [List.pairwise_append]
    refine ⟨d1, d2, ?_⟩
    intro ra hra rb hrb
    cases ra with
    | listIds => intro x hxa; simp [reqIds] at hxa
    | batch ids2 =>
        cases rb with
        | listIds => intro x hxa hxb; simp [reqIds] at hxb
        | batch ids3 =>
            intro x hxa hxb
            exact a2 ids3 hrb x hxb (c1 ids2 hra x hxa)

theorem FreshProps_resrc (s s1 : HookState) (out : HookState × List Req)
    (h : FreshProps s1 out) (hfe : s.fetchedIds = s1.fetchedIds) :
    FreshProps s out := by
  obtain ⟨a, b2, c, d⟩ := h
  exact ⟨fun ids2 hm x hx => hfe ▸ a ids2 hm x hx,
    fun x hx => b2 x (hfe ▸ hx), c, d⟩

theorem FreshProps_retarget (s s1 s2 : HookState) (r : List Req)
    (h : FreshProps s (s1, r)) (hfe : s2.fetchedIds = s1.fetchedIds) :
    FreshProps s (s2, r) := by
  obtain ⟨a, b2, c, d⟩ := h
  exact ⟨a, fun x hx => hfe ▸ b2 x hx,
    fun ids2 hm x hx => hfe ▸ c ids2 hm x hx, d⟩

theorem mem_filter_not_contains (l fs : List String) (x : String)
    (hx : x ∈ l.filter (fun i => !fs.contains i)) : ¬ x ∈ fs := by
  have hb := (List.mem_filter.mp hx).2
  rw [Bool.not_eq_true'] at hb
  intro hmm
  have ht : fs.contains x = true := List.elem_eq_true_of_mem hmm
  rw [ht] at hb
  exact Bool.noConfusion hb

theorem prefetchRequest_some_eq (s : HookState) (b t : Nat)
    (ids : List String) (h : prefetchRequest s b t = some ids) :
    ids = ((s.shuffledIds.drop s.currentIdIndex).take b).filter
        (fun i => !s.fetchedIds.contains i) := by
  rw [prefetchRequest_eq] at h
  split at h
  · injection h with h2
    exact h2.symm
  · exact Option.noConfusion h

theorem fetchBatch_fresh (env : Env) (henv : EnvComplete env)
    (s : HookState) (ids : List String)
    (hids : ∀ x ∈ ids, ¬ x ∈ s.fetchedIds) :
    FreshProps s (fetchBatch env s ids, [Req.batch ids]) := by
  refine ⟨?_, ?_, ?_, ?_⟩
  · intro ids2 hmem x hx
    have h2 := List.mem_singleton.mp hmem
    injection h2 with h3
    subst h3
    exact hids x hx
  · intro x hx
    exact fetched_mono_fetchBatch env s ids x hx
  · intro ids2 hmem x hx
    have h2 := List.mem_singleton.mp hmem
    injection h2 with h3
    rw [h3] at hx
    exact (mem_fetched_fetchBatch env henv s ids x).mpr (Or.inr hx)
  · simp

theorem prefetchStep_fresh (env : Env) (henv : EnvComplete env)
    (b t : Nat) (s : HookState) :
    FreshProps s (prefetchStep env b t s) := by
  unfold prefetchStep
  cases h : prefetchRequest s b t with
  | none => exact FreshProps_nil s s (fun x hx => hx)
  | some ids =>
      have hids : ∀ x ∈ ids, ¬ x ∈ s.fetchedIds := by
        intro x hx
        rw [prefetchRequest_some_eq s b t ids h] at hx
        exact mem_filter_not_contains _ _ _ hx
      exact fetchBatch_fresh env henv s ids hids

theorem fetchWindow_unfetched (s : HookState) (b nextIndex : Nat) :
    ∀ x ∈ fetchWindow s b nextIndex, ¬ x ∈ s.fetchedIds := by
  intro x hx
  unfold fetchWindow at hx
  exact mem_filter_not_contains _ _ _ hx

theorem prefetchFire_fresh (env : Env) (henv : EnvComplete env)
    (b t : Nat) (view s2 : HookState)
    (hfe : view.fetchedIds = s2.fetchedIds) :
    FreshProps s2 (prefetchFire env b t view s2) := by
  unfold prefetchFire
  cases h : prefetchRequest view b t with
  | none => exact FreshProps_nil s2 s2 (fun x hx => hx)
  | some ids =>
      have hids : ∀ x ∈ ids, ¬ x ∈ s2.fetchedIds := by
        intro x hx
        rw [← hfe]
        rw [prefetchRequest_some_eq view b t ids h] at hx
        exact mem_filter_not_contains _ _ _ hx
      exact fetchBatch_fresh env henv s2 ids hids

theorem getNextQuoteLoop_skip_fetched_eq (env : Env) (b t : Nat)
    (cache0 : List (String × Quote)) (idx0 fuel : Nat)
    (s : HookState) (nextIndex : Nat)
    (hlt : nextIndex < s.shuffledIds.length)
    (hcache : mapGet cache0 (s.shuffledIds.getD nextIndex "") = none)
    (hcf : s.fetchedIds.contains (s.shuffledIds.getD nextIndex "") = true) :
    getNextQuoteLoop env b t cache0 idx0 (fuel + 1) s nextIndex =
      ((getNextQuoteLoop env b t cache0 idx0 fuel s (nextIndex + 1)).1,
        (getNextQuoteLoop env b t cache0 idx0 fuel s (nextIndex + 1)).2)
      := by
  simp only [getNextQuoteLoop]
  rw [if_pos hlt, hcache, hcf]
  rfl

theorem getNextQuoteLoop_skip_empty_eq (env : Env) (b t : Nat)
    (cache0 : List (String × Quote)) (idx0 fuel : Nat)
    (s : HookState) (nextIndex : Nat)
    (hlt : nextIndex < s.shuffledIds.length)
    (hcache : mapGet cache0 (s.shuffledIds.getD nextIndex "") = none)
    (hcf : s.fetchedIds.contains (s.shuffledIds.getD nextIndex "") = false)
    (hpos : ¬ 0 < (fetchWindow s b nextIndex).length) :
    getNextQuoteLoop env b t cache0 idx0 (fuel + 1) s nextIndex =
      ((getNextQuoteLoop env b t cache0 idx0 fuel s (nextIndex + 1)).1,
        (getNextQuoteLoop env b t cache0 idx0 fuel s (nextIndex + 1)).2)
      := by
  simp only [getNextQuoteLoop]
  rw [if_pos hlt, hcache, hcf]
  simp only [Bool.false_eq_true, if_false]
  rw [if_neg hpos]
  rfl

theorem getNextQuoteLoop_fetch_skip_eq (env : Env) (b t : Nat)
    (cache0 : List (String × Quote)) (idx0 fuel : Nat)
    (s : HookState) (nextIndex : Nat)
    (hlt : nextIndex < s.shuffledIds.length)
    (hcache : mapGet cache0 (s.shuffledIds.getD nextIndex "") = none)
    (hcf : s.fetchedIds.contains (s.shuffledIds.getD nextIndex "") = false)
    (hpos : 0 < (fetchWindow s b nextIndex).length) :
    getNextQuoteLoop env b t cache0 idx0 (fuel + 1) s nextIndex =
      ((getNextQuoteLoop env b t cache0 idx0 fuel
          (fetchBatch env s (fetchWindow s b nextIndex))
          (nextIndex + 1)).1,
        Req.batch (fetchWindow s b nextIndex) ::
          (getNextQuoteLoop env b t cache0 idx0 fuel
            (fetchBatch env s (fetchWindow s b nextIndex))
            (nextIndex + 1)).2) := by
  simp only [getNextQuoteLoop]
  rw [if_pos hlt, hcache, hcf]
  simp only [Bool.false_eq_true, if_false]
  rw [if_pos hpos]
  rfl

theorem getNextQuoteLoop_stop_eq (env : Env) (b t : Nat)
    (cache0 : List (String × Quote)) (idx0 fuel : Nat)
    (s : HookState) (nextIndex : Nat)
    (hlt : ¬ nextIndex < s.shuffledIds.length) :
    getNextQuoteLoop env b t cache0 idx0 (fuel + 1) s nextIndex
      = (s, []) := by
  simp only [getNextQuoteLoop]
  rw [if_neg hlt]

theorem getNextQuoteLoop_fresh (env : Env) (henv : EnvComplete env)
    (b t : Nat) (cache0 : List (String × Quote)) (idx0 : Nat) :
    ∀ fuel s nextIndex,
      FreshProps s (getNextQuoteLoop env b t cache0 idx0 fuel s nextIndex)
      := by
  intro fuel
  induction fuel with
  | zero =>
      intro s nextIndex
      exact FreshProps_nil s s (fun x hx => hx)
  | succ fuel ih =>
      intro s nextIndex
      by_cases hlt : nextIndex < s.shuffledIds.length
      · cases hc : mapGet cache0 (s.shuffledIds.getD nextIndex "") with
        | some q =>
            rw [getNextQuoteLoop_serve_cached env b t cache0 idx0 fuel s
              nextIndex q hlt hc]
            apply FreshProps_retarget s (prefetchFire env b t
              (closureView (serveUpdate s nextIndex q) idx0)
              (serveUpdate s nextIndex q)).1
            · exact FreshProps_resrc s _ _
                (prefetchFire_fresh env henv b t _ _ rfl) rfl
            · split <;> rfl
        | none =>
            cases hcf : s.fetchedIds.contains
                (s.shuffledIds.getD nextIndex "") with
            | true =>
                rw [getNextQuoteLoop_skip_fetched_eq env b t cache0 idx0
                  fuel s nextIndex hlt hc hcf]
                exact ih s (nextIndex + 1)
            | false =>
                by_cases hpos : 0 < (fetchWindow s b nextIndex).length
                · rw [getNextQuoteLoop_fetch_skip_eq env b t cache0 idx0
                    fuel s nextIndex hlt hc hcf hpos]
                  exact FreshProps_comp s
                    (fetchBatch env s (fetchWindow s b nextIndex)) _
                    [Req.batch (fetchWindow s b nextIndex)] _
                    (fetchBatch_fresh env henv s _
                      (fetchWindow_unfetched s b nextIndex))
                    (ih (fetchBatch env s (fetchWindow s b nextIndex))
                      (nextIndex + 1))
                · rw [getNextQuoteLoop_skip_empty_eq env b t cache0 idx0
                    fuel s nextIndex hlt hc hcf hpos]
                  exact ih s (nextIndex + 1)
      · rw [getNextQuoteLoop_stop_eq env b t cache0 idx0 fuel s nextIndex
          hlt]
        exact FreshProps_nil s s (fun x hx => hx)

theorem getNextQuote_fresh (env : Env) (henv : EnvComplete env)
    (b t : Nat) (s : HookState) :
    FreshProps s (getNextQuote env b t s) := by
  unfold getNextQuote
  split
  · exact FreshProps_nil s s (fun x hx => hx)
  · exact getNextQuoteLoop_fresh env henv b t s.quotesCache
      s.currentIdIndex _ s s.currentIdIndex

theorem toggleFavorite_fetchedIds (s : HookState) (quoteId : String)
    (ok : Bool) :
    (toggleFavorite s quoteId ok).fetchedIds = s.fetchedIds := by
  unfold toggleFavorite
  cases mapGet s.quotesCache quoteId with
  | none => rfl
  | some quote => cases ok <;> rfl

theorem runSession_fresh (env : Env) (henv : EnvComplete env)
    (b t : Nat) :
    ∀ (ops : List SessionOp) (s : HookState),
      FreshProps s (runSession env b t ops s) := by
  intro ops
  induction ops with
  | nil =>
      intro s
      exact FreshProps_nil s s (fun x hx => hx)
  | cons op ops ih =>
      intro s
      cases op with
      | next =>
          exact FreshProps_comp s (getNextQuote env b t s).1 _
            (getNextQuote env b t s).2 _
            (getNextQuote_fresh env henv b t s)
            (ih (getNextQuote env b t s).1)
      | prefetch =>
          exact FreshProps_comp s (prefetchStep env b t s).1 _
            (prefetchStep env b t s).2 _
            (prefetchStep_fresh env henv b t s)
            (ih (prefetchStep env b t s).1)
      | toggle quoteId ok =>
          exact FreshProps_comp s (toggleFavorite s quoteId ok) _ [] _
            (FreshProps_nil s (toggleFavorite s quoteId ok)
              (fun x hx => by rw [toggleFavorite_fetchedIds]; exact hx))
            (ih (toggleFavorite s quoteId ok))

/-- C1: over any session of hook operations against a complete server,
every id appearing in a batch request issued by getNextQuote or
prefetchNextBatch was absent from the fetchedIds set at the start of the
session, and no two requests of the session share an id; together with
fetchedIds growing to cover every requested id (the remaining conjunct),
no quote body is requested from the database more than once per
session. -/
theorem session_batch_requests_fresh (env : Env) (henv : EnvComplete env)
    (b t : Nat) (ops : List SessionOp) (s : HookState) :
    (∀ ids2, Req.batch ids2 ∈ (runSession env b t ops s).2 →
        ∀ x ∈ ids2, ¬ x ∈ s.fetchedIds) ∧
      (∀ ids2, Req.batch ids2 ∈ (runSession env b t ops s).2 →
        ∀ x ∈ ids2, x ∈ (runSession env b t ops s).1.fetchedIds) ∧
      List.Pairwise (fun r1 r2 => ∀ x ∈ reqIds r1, ¬ x ∈ reqIds r2)
        (runSession env b t ops s).2 := by
  obtain ⟨a, b2, c, d⟩ := runSession_fresh env henv b t ops s
  exact ⟨a, c, d⟩

/-- Witness for C1 at a concrete two-call session from a fresh state. -/
theorem session_batch_requests_fresh_witness :
    (∀ ids2,
        Req.batch ids2 ∈ (runSession envEx 2 1 [.next, .next] sTwo).2 →
        ∀ x ∈ ids2, ¬ x ∈ sTwo.fetchedIds) ∧
      (∀ ids2,
        Req.batch ids2 ∈ (runSession envEx 2 1 [.next, .next] sTwo).2 →
        ∀ x ∈ ids2,
          x ∈ (runSession envEx 2 1 [.next, .next] sTwo).1.fetchedIds) ∧
      List.Pairwise (fun r1 r2 => ∀ x ∈ reqIds r1, ¬ x ∈ reqIds r2)
        (runSession envEx 2 1 [.next, .next] sTwo).2 :=
  session_batch_requests_fresh envEx envEx_complete 2 1 [.next, .next] sTwo

end Inspiro
